import Mathlib

/-!
Verification of the fan-out / merge / cache core of the katalogbul repository.

The Python sources are shallowly embedded as executable Lean definitions:

* `src/src/cache_manager.py`   — `mkCacheKey`, `save_to_cache`, `get_cached_results`
* `src/src/multi_search.py`    — `search_single_engine`, `search_all_engines`, `msDedup`
* `src/src/search/aggregator.py` — `normalize_url`, `aggDedup`, `agg_merged`
* `src/src/search/query_builder.py` and `src/src/data/categories.py` — `build_search_query`
* `src/src/data/domains.py`    — `is_premium_domain`, `is_excluded_domain`
* `src/api/main.py` (multi_engine_search ranking) — `rank_merged`
* `src/src/yandex_client.py`   — `get_iam_token`, `poll_loop`

Python dictionaries holding one search hit are modelled by the structure `Rec`
with the fields the embedded code reads or writes; timestamps are integers
(seconds); SQLite rows keyed by `cache_key` are a function from key strings to
optional entries.  Python string methods are modelled by the corresponding
Lean operations, which agree with CPython on the ASCII data the code handles.
-/

namespace Katalogbul

/-! ### Python string primitives -/

/-- List prefix test used by `pyIn`. -/
def startsList : List Char → List Char → Bool
  | [], _ => true
  | _ :: _, [] => false
  | a :: as, b :: bs => a = b && startsList as bs

/-- Infix test on character lists. -/
def infixList (needle : List Char) : List Char → Bool
  | [] => needle.isEmpty
  | h :: t => startsList needle (h :: t) || infixList needle t

/-- Model of the Python substring test `needle in hay`. -/
def pyIn (needle hay : String) : Bool :=
  infixList needle.data hay.data

/-- Value of a hexadecimal digit, as accepted by `urllib.parse.unquote`. -/
def hexVal (c : Char) : Option Nat :=
  if '0' ≤ c ∧ c ≤ '9' then some (c.toNat - '0'.toNat)
  else if 'a' ≤ c ∧ c ≤ 'f' then some (c.toNat - 'a'.toNat + 10)
  else if 'A' ≤ c ∧ c ≤ 'F' then some (c.toNat - 'A'.toNat + 10)
  else none

/-- Scanner state for `percentDecode`: outside an escape, just after a `%`, or
after a `%` and one hexadecimal digit candidate. -/
inductive PctState where
  | normal
  | sawPct
  | sawHex (c1 : Char)

/-- Left-to-right scan of `urllib.parse.unquote`: each valid `%XX` escape
becomes a raw byte (`Sum.inr`), every other character passes through
(`Sum.inl`); an invalid escape is emitted literally and scanning resumes at
the next `%`. -/
def pctAux : PctState → List Char → List (Sum Char Nat)
  | .normal, [] => []
  | .sawPct, [] => [Sum.inl '%']
  | .sawHex c1, [] => [Sum.inl '%', Sum.inl c1]
  | .normal, c :: rest =>
    if c = '%' then pctAux .sawPct rest else Sum.inl c :: pctAux .normal rest
  | .sawPct, c :: rest =>
    match hexVal c with
    | some _ => pctAux (.sawHex c) rest
    | none =>
      if c = '%' then Sum.inl '%' :: pctAux .sawPct rest
      else Sum.inl '%' :: Sum.inl c :: pctAux .normal rest
  | .sawHex c1, c :: rest =>
    match hexVal c1, hexVal c with
    | some a, some b => Sum.inr (16 * a + b) :: pctAux .normal rest
    | _, _ =>
      if c = '%' then Sum.inl '%' :: Sum.inl c1 :: pctAux .sawPct rest
      else Sum.inl '%' :: Sum.inl c1 :: Sum.inl c :: pctAux .normal rest

/-- First pass of `urllib.parse.unquote`. -/
def percentDecode (s : List Char) : List (Sum Char Nat) :=
  pctAux .normal s

/-- Replacement character used by `errors="replace"` decoding. -/
def replChar : Char := '�'

/-- Classify a UTF-8 lead byte: a complete one-byte character, or a pending
multi-byte sequence `(remaining continuation bytes, accumulator, minimum legal
code point)`; invalid lead bytes yield the replacement character. -/
def u8Lead (b : Nat) : Sum Char (Nat × Nat × Nat) :=
  if b < 128 then Sum.inl (Char.ofNat b)
  else if 194 ≤ b ∧ b ≤ 223 then Sum.inr (1, b - 192, 128)
  else if 224 ≤ b ∧ b ≤ 239 then Sum.inr (2, b - 224, 2048)
  else if 240 ≤ b ∧ b ≤ 244 then Sum.inr (3, b - 240, 65536)
  else Sum.inl replChar

/-- Finish a multi-byte sequence, rejecting overlong encodings and surrogate
code points. -/
def u8Fin (n minV : Nat) : Char :=
  if minV ≤ n ∧ n ≤ 1114111 ∧ ¬ (55296 ≤ n ∧ n ≤ 57343) then Char.ofNat n
  else replChar

/-- UTF-8 decoding with replacement on error, modelling how CPython turns the
decoded percent-escape bytes back into text (`errors="replace"`); valid
sequences decode exactly, malformed input yields `replChar`. -/
def u8Run : Option (Nat × Nat × Nat) → List Nat → List Char
  | none, [] => []
  | some _, [] => [replChar]
  | none, b :: bs =>
    match u8Lead b with
    | Sum.inl c => c :: u8Run none bs
    | Sum.inr st => u8Run (some st) bs
  | some (rem, acc, minV), b :: bs =>
    if 128 ≤ b ∧ b ≤ 191 then
      let acc2 := acc * 64 + (b - 128)
      if rem = 1 then u8Fin acc2 minV :: u8Run none bs
      else u8Run (some (rem - 1, acc2, minV)) bs
    else
      replChar ::
        (match u8Lead b with
         | Sum.inl c => c :: u8Run none bs
         | Sum.inr st => u8Run (some st) bs)

/-- UTF-8 decode a byte run. -/
def utf8Dec (bs : List Nat) : List Char :=
  u8Run none bs

/-- Second pass of `urllib.parse.unquote`: literal characters pass through and
maximal runs of decoded bytes are UTF-8 decoded.  `pending` holds the current
byte run in reverse order. -/
def decodeTokensAux (pending : List Nat) : List (Sum Char Nat) → List Char
  | [] => utf8Dec pending.reverse
  | Sum.inl c :: rest => utf8Dec pending.reverse ++ c :: decodeTokensAux [] rest
  | Sum.inr b :: rest => decodeTokensAux (b :: pending) rest

/-- Model of `urllib.parse.unquote`. -/
def pyUnquote (s : String) : String :=
  String.mk (decodeTokensAux [] (percentDecode s.data))

/-- Model of Python `str.lower()` (ASCII case mapping; the embedded data is
only ever ASCII-cased). -/
def pyLower (s : String) : String :=
  String.mk (s.data.map Char.toLower)

/-- Model of Python `str.strip()`: remove leading and trailing whitespace. -/
def pyStrip (s : String) : String :=
  String.mk (((s.data.dropWhile Char.isWhitespace).reverse.dropWhile
    Char.isWhitespace).reverse)

/-- Model of Python `str.rstrip("/")`: drop every trailing slash. -/
def rstripSlashes (s : String) : String :=
  String.mk (List.reverse (s.data.reverse.dropWhile (fun c => c = '/')))

/-- Model of Python `str.startswith`. -/
def pyStartsWith (pre s : String) : Bool :=
  startsList pre.data s.data

/-- Fuel-driven body of `pyReplaceAll`; the fuel is the input length, enough
because each step consumes at least one character. -/
def replaceFuel (pat repl : List Char) : Nat → List Char → List Char
  | 0, s => s
  | _ + 1, [] => []
  | fuel + 1, c :: rest =>
    if startsList pat (c :: rest) then
      repl ++ replaceFuel pat repl fuel ((c :: rest).drop pat.length)
    else c :: replaceFuel pat repl fuel rest

/-- Model of Python `str.replace(pat, repl)` (replaces every occurrence,
scanning left to right); `pat` is non-empty at every call site. -/
def pyReplaceAll (s pat repl : String) : String :=
  String.mk (replaceFuel pat.data repl.data s.data.length s.data)

/-- Model of Python `" ".join`. -/
def joinSep (sep : String) : List String → String
  | [] => ""
  | [x] => x
  | x :: y :: rest => x ++ sep ++ joinSep sep (y :: rest)

/-- Body of `pySplit`: accumulate the current word (reversed) while scanning. -/
def wordsAux (acc : List Char) : List Char → List (List Char)
  | [] => if acc.isEmpty then [] else [acc.reverse]
  | c :: rest =>
    if c.isWhitespace then
      if acc.isEmpty then wordsAux [] rest else acc.reverse :: wordsAux [] rest
    else wordsAux (c :: acc) rest

/-- Model of Python `str.split()` with no argument: split on whitespace runs,
ignoring leading and trailing whitespace. -/
def pySplit (s : String) : List String :=
  (wordsAux [] s.data).map String.mk

/-! ### `src/src/search/aggregator.py` — URL normalization -/

/-- Embedding of `normalize_url` (aggregator.py lines 22-47): percent-decode,
lowercase, strip, remove every `https://` and `http://` occurrence, remove a
leading `www.`, remove trailing slashes.  The `try/except` wrapper never fires
in the model because every step is total. -/
def normalize_url (url : String) : String :=
  let u := pyStrip (pyLower (pyUnquote url))
  let u := pyReplaceAll (pyReplaceAll u "https://" "") "http://" ""
  let u := if pyStartsWith "www." u then String.mk (u.data.drop 4) else u
  rstripSlashes u

/-! ### `src/src/data/domains.py` -/

/-- Embedding of `PREMIUM_DOMAINS`. -/
def PREMIUM_DOMAINS : List String :=
  ["scribd.com", "issuu.com", "academia.edu", "researchgate.net",
   "slideshare.net", "calameo.com", "yumpu.com",
   "pdfcoffee.com", "pdfdrive.com", "pdfslide.net", "dokumen.tips",
   "fdocuments.net", "vdocuments.net", "cupdf.com", "vsepdf.com",
   "manualzz.com",
   "wenku.baidu.com", "docin.com", "book118.com", "doc88.com",
   "360doc.com", "max.book118.com",
   "studfile.net", "topuch.ru", "studopedia.ru",
   "slideshare.jp", "happycampus.com"]

/-- Embedding of `EXCLUDED_DOMAINS`. -/
def EXCLUDED_DOMAINS : List String :=
  ["ebay.com", "ebay.de", "ebay.co.uk", "ebay.fr",
   "amazon.com", "amazon.de", "amazon.co.uk",
   "aliexpress.com", "alibaba.com",
   "autoepcservice.com", "epcatalogs.com", "heavymanuals.com",
   "themanualman.com", "sellfy.com", "payhip.com",
   "pinterest.com", "facebook.com", "twitter.com", "youtube.com"]

/-- Embedding of `is_premium_domain`. -/
def is_premium_domain (url : String) : Bool :=
  PREMIUM_DOMAINS.any (fun d => pyIn d (pyLower url))

/-- Embedding of `is_excluded_domain`. -/
def is_excluded_domain (url : String) : Bool :=
  EXCLUDED_DOMAINS.any (fun d => pyIn d (pyLower url))

/-! ### Result records -/

/-- One search hit, modelling the Python dict with the fields the embedded
code reads or writes.  Fields the code never touches are elided. -/
structure Rec where
  url : String := ""
  title : String := ""
  engine : String := ""
  source : String := ""
  is_premium : Bool := false
  deriving DecidableEq, Repr

/-! ### `src/src/cache_manager.py` -/

/-- Embedding of `CACHE_EXPIRY_DAYS` from `src/src/config.py`. -/
def CACHE_EXPIRY_DAYS : Int := 3650

/-- `timedelta(days=CACHE_EXPIRY_DAYS)` in seconds. -/
def ttlSeconds : Int := CACHE_EXPIRY_DAYS * 86400

/-- Embedding of `CacheManager._generate_cache_key`.  The final `md5`
hex digest is modelled by the joined key string itself (the digest is used
only as an opaque unique key; `md5` is injective on the keys in use). -/
def mkCacheKey (engine query : String) (language doc_type : Option String)
    (page : Option Int) : String :=
  let parts := [engine, pyStrip (pyLower query)]
  let parts := parts ++
    (match language with
     | some l => if l = "" then [] else [l]
     | none => [])
  let parts := parts ++
    (match doc_type with
     | some d => if d = "" then [] else [d]
     | none => [])
  let parts := parts ++
    (match page with
     | some p => ["p" ++ toString p]
     | none => [])
  joinSep "|" parts

/-- One row of the `search_cache` table (the columns the embedded code reads
or writes; the audit columns `created_at`/`updated_at` are elided). -/
structure CacheEntry where
  results : List Rec
  result_count : Nat
  expires_at : Int
  deriving DecidableEq, Repr

/-- The `search_cache` table, keyed by `cache_key` (a `UNIQUE` column). -/
def CacheStore := String → Option CacheEntry

/-- The inner merge loop of `CacheManager.save_to_cache` (lines 92-100):
from the incoming results keep only those whose lowercased URL is non-empty
and not yet seen; `seen` starts as the lowercased URLs of the existing entry. -/
def mergeNewUnique (seen : List String) : List Rec → List Rec
  | [] => []
  | r :: rs =>
    if pyLower r.url ≠ "" ∧ pyLower r.url ∉ seen then
      r :: mergeNewUnique (pyLower r.url :: seen) rs
    else mergeNewUnique seen rs

/-- Embedding of `CacheManager.save_to_cache` (lines 65-145): merge-on-write
into an existing row, verbatim insert otherwise.  `now` is `datetime.now()`
in seconds; the SQLite transaction either fully commits or leaves the store
unchanged, and the model keeps the committing branch. -/
def save_to_cache (store : CacheStore) (engine query : String)
    (language doc_type : Option String) (page : Option Int)
    (results : List Rec) (now : Int) : CacheStore :=
  let key := mkCacheKey engine query language doc_type page
  let expires := now + ttlSeconds
  match store key with
  | some e =>
    let merged := e.results ++ mergeNewUnique (e.results.map (fun r => pyLower r.url)) results
    fun k => if k = key then some ⟨merged, merged.length, expires⟩ else store k
  | none =>
    fun k => if k = key then some ⟨results, results.length, expires⟩ else store k

/-- Embedding of `CacheManager.get_cached_results` (lines 38-63): the SQL
filter `expires_at > datetime('now')` keeps only rows whose expiry is still
strictly in the future. -/
def get_cached_results (store : CacheStore) (engine query : String)
    (language doc_type : Option String) (page : Option Int) (now : Int) :
    Option (List Rec) :=
  match store (mkCacheKey engine query language doc_type page) with
  | none => none
  | some e => if now < e.expires_at then some e.results else none

/-- Specification helper (not from the source): keep the first occurrence of
every key, dropping keys already in `seen`.  `|R1 ∪ R2|` by a URL key is the
length of `dedupFirst []` of the mapped keys. -/
def dedupFirst (seen : List String) : List String → List String
  | [] => []
  | u :: us => if u ∈ seen then dedupFirst seen us else u :: dedupFirst (u :: seen) us

/-! ### `src/src/multi_search.py` -/

/-- The dedup loop of `MultiSearchCoordinator.search_all_engines`
(lines 223-230): first occurrence of each *lowercased* URL wins; later
duplicates are dropped whole. -/
def msDedup (seen : List String) : List Rec → List Rec
  | [] => []
  | i :: is =>
    if pyLower i.url ∈ seen then msDedup seen is
    else i :: msDedup (pyLower i.url :: seen) is

/-- The per-engine entry of the coordinator's report (the dict returned by
`search_single_engine`). -/
structure EngineReport where
  engine : String
  results : List Rec
  count : Nat
  cached : Bool
  error : Option String
  deriving DecidableEq, Repr

/-- Embedding of `MultiSearchCoordinator.search_single_engine`
(lines 56-144).  The adapter call is modelled by `outcome`: `Except.ok`
for a normal return, `Except.error` for a raised exception (which the
method catches, recording `str(e)`). -/
def search_single_engine (selfUseCache : Bool) (store : CacheStore)
    (engine_name query : String) (language doc_type : Option String)
    (page : Option Int) (useCache : Bool)
    (outcome : Except String (List Rec)) (now : Int) :
    EngineReport × CacheStore :=
  let cached :=
    if selfUseCache && useCache then
      get_cached_results store engine_name query language doc_type page now
    else none
  match cached with
  | some rs =>
    ({ engine := engine_name, results := rs, count := rs.length,
       cached := true, error := none }, store)
  | none =>
    match outcome with
    | Except.ok rs =>
      let store2 :=
        if selfUseCache && !rs.isEmpty then
          save_to_cache store engine_name query language doc_type page rs now
        else store
      ({ engine := engine_name, results := rs, count := rs.length,
         cached := false, error := none }, store2)
    | Except.error e =>
      ({ engine := engine_name, results := [], count := 0,
         cached := false, error := some e }, store)

/-- Run the engines in order, threading the cache store (the model of
`asyncio.gather`, which yields the task results in task order). -/
def runEngines (selfUseCache useCache : Bool) (query : String)
    (language doc_type : Option String) (page : Option Int) (now : Int) :
    CacheStore → List (String × Except String (List Rec)) →
    List EngineReport × CacheStore
  | store, [] => ([], store)
  | store, (name, outcome) :: rest =>
    let p := search_single_engine selfUseCache store name query language
      doc_type page useCache outcome now
    let q := runEngines selfUseCache useCache query language doc_type page now
      p.2 rest
    (p.1 :: q.1, q.2)

/-- The aggregation report of `MultiSearchCoordinator.search_all_engines`. -/
structure MSReport where
  engines : List EngineReport
  total_results : Nat
  merged_results : List Rec
  deriving DecidableEq, Repr

/-- Embedding of `MultiSearchCoordinator.search_all_engines`
(lines 146-242): run every requested engine, tag each result with its
engine name, concatenate, and deduplicate by lowercased URL keeping the
first occurrence. -/
def search_all_engines (selfUseCache useCache : Bool) (store : CacheStore)
    (query : String) (language doc_type : Option String) (page : Option Int)
    (engines : List (String × Except String (List Rec))) (now : Int) :
    MSReport × CacheStore :=
  let p := runEngines selfUseCache useCache query language doc_type page now
    store engines
  let all_results := p.1.flatMap
    (fun rep => rep.results.map (fun i => { i with engine := rep.engine }))
  let merged := msDedup [] all_results
  ({ engines := p.1, total_results := merged.length,
     merged_results := merged }, p.2)

/-! ### `src/src/search/aggregator.py` — merge loop -/

/-- Embedding of `MAX_TOTAL_RESULTS`. -/
def MAX_TOTAL_RESULTS : Nat := 100

/-- The per-result annotation of the aggregator's keep branch
(lines 171-173): set `is_premium` and `source`. -/
def aggKeep (engine : String) (r : Rec) : Rec :=
  { r with is_premium := is_premium_domain r.url, source := engine }

/-- The dedup loop of `MultiEngineAggregator.search_all_engines`
(lines 158-175): key by `url_hash` (md5 of the normalized URL, modelled by
the normalized URL itself), skip keys already seen, then drop excluded
domains (which still claim their key), otherwise keep the annotated result. -/
def aggDedup (seen : List String) : List (String × Rec) → List Rec
  | [] => []
  | (eng, r) :: rest =>
    if normalize_url r.url ∈ seen then aggDedup seen rest
    else if is_excluded_domain r.url then
      aggDedup (normalize_url r.url :: seen) rest
    else aggKeep eng r :: aggDedup (normalize_url r.url :: seen) rest

/-- Flatten the per-engine adapter outcomes in engine order, skipping the
engines whose task raised (lines 150-156). -/
def aggFlatten (contribs : List (String × Except String (List Rec))) :
    List (String × Rec) :=
  contribs.flatMap fun p =>
    match p.2 with
    | Except.ok rs => rs.map (fun r => (p.1, r))
    | Except.error _ => []

/-- The merged result list of `MultiEngineAggregator.search_all_engines`:
dedup in contribution order, then truncate to `MAX_TOTAL_RESULTS`
(line 178). -/
def agg_merged (contribs : List (String × Except String (List Rec))) :
    List Rec :=
  (aggDedup [] (aggFlatten contribs)).take MAX_TOTAL_RESULTS

/-! ### Stable sorting (model of Python `list.sort`, which is stable) -/

/-- Insert `x` in front of the first element `y` with `le x y`; with
`le := fun a b => key a ≤ key b` this keeps `x` before equal-key elements. -/
def insertOrd (le : α → α → Bool) (x : α) : List α → List α
  | [] => [x]
  | y :: ys => if le x y then x :: y :: ys else y :: insertOrd le x ys

/-- Stable insertion sort: elements with equal keys keep their input order,
exactly like CPython `list.sort`. -/
def stableSort (le : α → α → Bool) : List α → List α
  | [] => []
  | x :: xs => insertOrd le x (stableSort le xs)

/-! ### `src/src/data/categories.py` and `src/src/search/query_builder.py` -/

/-- Embedding of `SEARCH_TERMS_BY_LANG`. -/
def SEARCH_TERMS_BY_LANG : List (String × List (String × List String)) :=
  [("en",
    [("parts_catalog",
      ["parts catalog", "parts catalogue", "illustrated parts catalog",
       "parts manual", "spare parts catalog", "parts book", "parts breakdown",
       "exploded parts diagram"]),
     ("service_manual",
      ["service manual", "workshop manual", "repair manual", "shop manual",
       "overhaul manual", "maintenance manual", "technical manual",
       "factory service manual"]),
     ("electrical_diagram",
      ["wiring diagram", "electrical schematic", "wire harness diagram",
       "circuit diagram", "electrical diagram", "electrical wiring diagram"]),
     ("hydraulic_diagram",
      ["hydraulic schematic", "hydraulic diagram", "hydraulic circuit diagram",
       "hydraulic system diagram", "hydraulic flow diagram"]),
     ("troubleshooting",
      ["troubleshooting guide", "troubleshooting manual", "fault code list",
       "error code list", "diagnostic manual", "fault finding guide",
       "DTC codes"])]),
   ("tr",
    [("parts_catalog",
      ["parça kataloğu", "yedek parça kataloğu", "parça kitabı",
       "eksplozyon şeması"]),
     ("service_manual",
      ["servis kılavuzu", "tamir kılavuzu", "bakım kılavuzu",
       "atölye kılavuzu", "teknik kılavuz"]),
     ("electrical_diagram",
      ["elektrik şeması", "kablo şeması", "elektrik devresi",
       "tesisat şeması", "devre şeması"]),
     ("hydraulic_diagram",
      ["hidrolik şema", "hidrolik devre şeması", "hidrolik sistem şeması"]),
     ("troubleshooting",
      ["arıza kodu", "hata kodu listesi", "arıza teşhis", "sorun giderme",
       "DTC kodları"])]),
   ("ru",
    [("parts_catalog",
      ["каталог запчастей", "каталог деталей", "список запчастей",
       "справочник деталей"]),
     ("service_manual",
      ["руководство по ремонту", "руководство по обслуживанию",
       "сервисное руководство", "руководство по эксплуатации"]),
     ("electrical_diagram",
      ["электрическая схема", "схема электропроводки", "электросхема"]),
     ("hydraulic_diagram",
      ["гидравлическая схема", "схема гидравлики"]),
     ("troubleshooting",
      ["коды ошибок", "диагностика неисправностей",
       "руководство по устранению неисправностей"])]),
   ("zh",
    [("parts_catalog", ["零件目录", "配件手册", "备件目录", "零件手册"]),
     ("service_manual", ["维修手册", "服务手册", "修理手册", "保养手册"]),
     ("electrical_diagram", ["电气图", "线路图", "电路图"]),
     ("hydraulic_diagram", ["液压图", "液压原理图"]),
     ("troubleshooting", ["故障代码", "故障诊断", "错误代码"])])]

/-- Embedding of `CATEGORY_CORE_KEYWORDS_BY_LANG` from `query_builder.py`. -/
def CATEGORY_CORE_KEYWORDS_BY_LANG : List (String × List (String × String)) :=
  [("en",
    [("parts_catalog", "parts"), ("service_manual", "service"),
     ("electrical_diagram", "wiring"), ("hydraulic_diagram", "hydraulic"),
     ("troubleshooting", "fault")]),
   ("tr",
    [("parts_catalog", "parça"), ("service_manual", "servis"),
     ("electrical_diagram", "elektrik"), ("hydraulic_diagram", "hidrolik"),
     ("troubleshooting", "arıza")]),
   ("ru",
    [("parts_catalog", "запчастей"), ("service_manual", "ремонту"),
     ("electrical_diagram", "электрическая"),
     ("hydraulic_diagram", "гидравлическая"), ("troubleshooting", "ошибок")]),
   ("zh",
    [("parts_catalog", "零件"), ("service_manual", "维修"),
     ("electrical_diagram", "电气"), ("hydraulic_diagram", "液压"),
     ("troubleshooting", "故障")])]

/-- The stop list of `_extract_variant_words` (line 77), duplicate included. -/
def STOPWORDS : List String := ["the", "and", "of", "for", "по", "по", "и"]

/-- `SEARCH_TERMS_BY_LANG.get(language, SEARCH_TERMS_BY_LANG.get("en", {}))`. -/
def termsTableOf (language : String) : List (String × List String) :=
  (SEARCH_TERMS_BY_LANG.lookup language).getD
    ((SEARCH_TERMS_BY_LANG.lookup "en").getD [])

/-- `CATEGORY_CORE_KEYWORDS_BY_LANG.get(language, ...["en"])`. -/
def coreTableOf (language : String) : List (String × String) :=
  (CATEGORY_CORE_KEYWORDS_BY_LANG.lookup language).getD
    ((CATEGORY_CORE_KEYWORDS_BY_LANG.lookup "en").getD [])

/-- The core keyword lookup of `build_search_query` (lines 127-128):
`lang_core.get(category, "parts")`. -/
def coreKeywordOf (language category : String) : String :=
  ((coreTableOf language).lookup category).getD "parts"

/-- Strict code-point lexicographic comparison of character lists, the order
Python uses to compare strings. -/
def strLtList : List Char → List Char → Bool
  | [], [] => false
  | [], _ :: _ => true
  | _ :: _, [] => false
  | a :: as, b :: bs =>
    if a.toNat < b.toNat then true
    else if b.toNat < a.toNat then false
    else strLtList as bs

/-- Boolean string comparison for Python `sorted` (code-point lexicographic). -/
def strLeB (a b : String) : Bool := !(strLtList b.data a.data)

/-- Embedding of `_extract_variant_words` (lines 55-80): all words of every
phrasing of the category, minus the core keyword and the stop list, as a
sorted, space-joined string (Python builds a `set` and sorts it; here the
duplicates are erased and the rest sorted). -/
def extract_variant_words (category language : String) : String :=
  let lang_terms := termsTableOf language
  let terms := (lang_terms.lookup category).getD
    ((lang_terms.lookup "parts_catalog").getD [])
  let core := coreKeywordOf language category
  let ws := (terms.flatMap (fun t => pySplit (pyLower t))).filter
    (fun w => w ≠ pyLower core ∧ w ∉ STOPWORDS)
  joinSep " " (stableSort strLeB ws.eraseDups)

/-- Step 1 of `build_search_query` (lines 119-120): the quoted brand, absent
under Python truthiness (`None` or `""`). -/
def brandPart : Option String → List String
  | some b => if b = "" then [] else ["\"" ++ pyLower b ++ "\""]
  | none => []

/-- Step 2 (lines 123-124): the quoted stripped model. -/
def modelPart : Option String → List String
  | some m => if m = "" then [] else ["\"" ++ pyStrip m ++ "\""]
  | none => []

/-- Step 3 (lines 127-129): the quoted core keyword, always present. -/
def corePart (category language : String) : List String :=
  ["\"" ++ coreKeywordOf language category ++ "\""]

/-- Step 4 (lines 132-134): the unquoted variant words, absent when empty. -/
def variantPart (category language : String) : List String :=
  if extract_variant_words category language = "" then []
  else [extract_variant_words category language]

/-- Step 5 (lines 137-141): the file-type filter in the engine's syntax. -/
def filetypePart (filetype engine : String) : List String :=
  if filetype = "" then []
  else if pyLower engine = "yandex" then ["mime:" ++ filetype]
  else ["filetype:" ++ filetype]

/-- The parts list assembled by `build_search_query` (lines 116-141); the
unused backward-compatibility parameter `max_terms` is elided. -/
def queryParts (brand model : Option String)
    (category filetype engine language : String) : List String :=
  brandPart brand ++ modelPart model ++ corePart category language ++
    variantPart category language ++ filetypePart filetype engine

/-- Embedding of `build_search_query` (lines 83-143). -/
def build_search_query (brand model : Option String)
    (category filetype engine language : String) : String :=
  joinSep " " (queryParts brand model category filetype engine language)

/-! ### `src/api/main.py` — `multi_engine_search` ranking (lines 865-888) -/

/-- One entry of `all_merged_results`, with the fields the ranking reads. -/
structure MainItem where
  title : String := ""
  url : String := ""
  language : String := ""
  brand_match : Bool := true
  file_size : Option Nat := none
  deriving DecidableEq, Repr

/-- The first sort key (line 866):
`(0 if brand_match else 1, 0 if language == 'en' else 1)`. -/
def key1 (x : MainItem) : Nat × Nat :=
  (if x.brand_match then 0 else 1, if x.language = "en" then 0 else 1)

/-- Lexicographic order on pairs, as Python compares key tuples. -/
def lexLe (p q : Nat × Nat) : Bool :=
  decide (p.1 < q.1) || (decide (p.1 = q.1) && decide (p.2 ≤ q.2))

/-- `x.get('file_size') or 0` (line 881): absent sizes count as 0. -/
def sizeVal (x : MainItem) : Nat := x.file_size.getD 0

/-- Comparison of the second sort (line 881, `reverse=True`): larger probed
size first, stable among equal sizes. -/
def sizeDescLe (a b : MainItem) : Bool := decide (sizeVal b ≤ sizeVal a)

/-- Comparison of the first sort (line 866), Python tuple comparison. -/
def brandLangLe (a b : MainItem) : Bool := lexLe (key1 a) (key1 b)

/-- Lines 869-878: when the merged list is non-empty, probe the sizes and
attach `file_size` to every entry; `szOf` models `get_multiple_pdf_sizes`,
an external collaborator. -/
def rank_assign (szOf : String → Option Nat) (l : List MainItem) :
    List MainItem :=
  if l.isEmpty then l
  else l.map (fun r => { r with file_size := szOf r.url })

/-- The ranking pipeline of `multi_engine_search` on `all_merged_results`
(lines 865-888) for `size_filter` absent or `"all"`: stable-sort by
`(brand_match, language == 'en')`, attach the probed file sizes, stable-sort
again by file size descending, truncate to 100. -/
def rank_merged (szOf : String → Option Nat) (rs : List MainItem) :
    List MainItem :=
  (stableSort sizeDescLe (rank_assign szOf (stableSort brandLangLe rs))).take 100

/-! ### `src/src/yandex_client.py` -/

/-- The token cache of `YandexSearchClient`: `_token` and `_token_expires`
(constructor sets `none` and `0`). -/
structure YandexState where
  token : Option String
  token_expires : Int
  deriving DecidableEq, Repr

/-- Python truthiness of `self._token` (`None` and `""` are falsy). -/
def tokenTruthy : Option String → Bool
  | none => false
  | some t => decide (t ≠ "")

/-- Embedding of `YandexSearchClient._get_iam_token` (lines 31-58): return
the cached token while `now < self._token_expires - 60`, otherwise sign a
fresh assertion and exchange it; `freshToken` models the `iamToken` field of
the exchange response.  The new expiry is recorded as `now + 3600`, matching
the lifetime of the signed assertion. -/
def get_iam_token (st : YandexState) (now : Int) (freshToken : String) :
    String × YandexState :=
  if tokenTruthy st.token ∧ now < st.token_expires - 60 then
    (st.token.getD "", st)
  else
    (freshToken, { token := some freshToken, token_expires := now + 3600 })

/-- One poll response (`result.get('done')`, `response.rawData`); an empty
`rawData` models an absent payload (Python truthiness). -/
structure PollBody where
  done : Bool
  rawData : String
  deriving DecidableEq, Repr

/-- Embedding of the polling loop of `YandexSearchClient.search`
(lines 109-124): up to a fixed number of polls, each preceded by a one
second sleep; a transport error raises into the outer handler, which
returns `[]`.  Returns the result list and the number of polls issued.
`poll i` is the i-th GET of the operation; `decode` models base64 decoding
plus `_parse_xml` of a non-empty payload. -/
def poll_loop (poll : Nat → Except String PollBody)
    (decode : String → List Rec) : Nat → Nat → List Rec × Nat
  | i, 0 => ([], i)
  | i, rem + 1 =>
    match poll i with
    | Except.error _ => ([], i + 1)
    | Except.ok body =>
      if body.done then
        (if body.rawData = "" then [] else decode body.rawData, i + 1)
      else poll_loop poll decode (i + 1) rem

/-- The poll ceiling, `range(30)`. -/
def POLL_CEILING : Nat := 30

/-- The `PENDING` phase of `YandexSearchClient.search`: poll from attempt 0
with the fixed ceiling. -/
def yandex_poll (poll : Nat → Except String PollBody)
    (decode : String → List Rec) : List Rec × Nat :=
  poll_loop poll decode 0 POLL_CEILING

/-! ### Lemmas: `dedupFirst` -/

theorem dedupFirst_congr :
    ∀ (l s₁ s₂ : List String), (∀ x, x ∈ s₁ ↔ x ∈ s₂) →
      dedupFirst s₁ l = dedupFirst s₂ l := by
  intro l
  induction l with
  | nil => intro s₁ s₂ _; rfl
  | cons u us ih =>
    intro s₁ s₂ h
    simp only [dedupFirst]
    by_cases hm : u ∈ s₁
    · rw [if_pos hm, if_pos ((h u).mp hm)]
      exact ih s₁ s₂ h
    · rw [if_neg hm, if_neg (fun hx => hm ((h u).mpr hx))]
      have h2 : ∀ x, x ∈ u :: s₁ ↔ x ∈ u :: s₂ := by
        intro x
        simp only [List.mem_cons]
        exact or_congr Iff.rfl (h x)
      rw [ih (u :: s₁) (u :: s₂) h2]

theorem mem_dedupFirst :
    ∀ (l s : List String) (x : String),
      x ∈ dedupFirst s l ↔ x ∈ l ∧ x ∉ s := by
  intro l
  induction l with
  | nil => intro s x; simp [dedupFirst]
  | cons u us ih =>
    intro s x
    simp only [dedupFirst]
    by_cases hm : u ∈ s
    · rw [if_pos hm, ih s x]
      by_cases hx : x = u
      · subst hx; simp [hm]
      · simp [hx]
    · rw [if_neg hm]
      simp only [List.mem_cons, ih (u :: s) x, List.mem_cons]
      by_cases hx : x = u
      · subst hx; simp [hm]
      · simp [hx]

theorem dedupFirst_append :
    ∀ (A B s : List String),
      dedupFirst s (A ++ B) = dedupFirst s A ++ dedupFirst (A ++ s) B := by
  intro A
  induction A with
  | nil => intro B s; rfl
  | cons u us ih =>
    intro B s
    simp only [List.cons_append, dedupFirst, List.append_eq]
    by_cases hm : u ∈ s
    · rw [if_pos hm, if_pos hm, ih]
      apply congrArg
      apply dedupFirst_congr
      intro x
      simp only [List.mem_append, List.mem_cons]
      by_cases hx : x = u
      · subst hx; simp [hm]
      · simp [hx]
    · rw [if_neg hm, if_neg hm, List.cons_append, ih]
      apply congrArg
      apply congrArg
      apply dedupFirst_congr
      intro x
      simp only [List.mem_append, List.mem_cons]
      tauto

theorem dedupFirst_id :
    ∀ (l s : List String), l.Nodup → (∀ x ∈ l, x ∉ s) →
      dedupFirst s l = l := by
  intro l
  induction l with
  | nil => intro s _ _; rfl
  | cons u us ih =>
    intro s hnd hs
    simp only [dedupFirst]
    rw [if_neg (hs u (List.mem_cons_self u us))]
    apply congrArg
    apply ih
    · exact hnd.of_cons
    · intro x hx
      intro hmem
      rcases List.mem_cons.mp hmem with h1 | h1
      · exact (List.nodup_cons.mp hnd).1 (h1 ▸ hx)
      · exact hs x (List.mem_cons_of_mem u hx) h1

/-! ### Lemmas: `mergeNewUnique` -/

theorem mergeNewUnique_map_lower :
    ∀ (l : List Rec) (seen : List String),
      (∀ r ∈ l, pyLower r.url ≠ "") →
      (mergeNewUnique seen l).map (fun r => pyLower r.url) =
        dedupFirst seen (l.map (fun r => pyLower r.url)) := by
  intro l
  induction l with
  | nil => intro seen _; rfl
  | cons r rs ih =>
    intro seen hne
    simp only [mergeNewUnique, List.map_cons, dedupFirst]
    have hr : pyLower r.url ≠ "" := hne r (List.mem_cons_self r rs)
    by_cases hm : pyLower r.url ∈ seen
    · rw [if_neg (fun h => h.2 hm), if_pos hm]
      exact ih seen (fun x hx => hne x (List.mem_cons_of_mem r hx))
    · rw [if_pos ⟨hr, hm⟩, if_neg hm, List.map_cons]
      apply congrArg
      exact ih (pyLower r.url :: seen)
        (fun x hx => hne x (List.mem_cons_of_mem r hx))

theorem mergeNewUnique_mem :
    ∀ (l : List Rec) (seen : List String) (r : Rec),
      r ∈ mergeNewUnique seen l →
      pyLower r.url ≠ "" ∧ pyLower r.url ∉ seen := by
  intro l
  induction l with
  | nil => intro seen r h; cases h
  | cons x xs ih =>
    intro seen r h
    simp only [mergeNewUnique] at h
    by_cases hc : pyLower x.url ≠ "" ∧ pyLower x.url ∉ seen
    · rw [if_pos hc] at h
      rcases List.mem_cons.mp h with h1 | h1
      · exact h1 ▸ hc
      · have := ih (pyLower x.url :: seen) r h1
        exact ⟨this.1, fun hx => this.2 (List.mem_cons_of_mem _ hx)⟩
    · rw [if_neg hc] at h
      exact ih seen r h

/-! ### Lemmas: `msDedup` -/

theorem msDedup_congr :
    ∀ (l : List Rec) (s₁ s₂ : List String), (∀ x, x ∈ s₁ ↔ x ∈ s₂) →
      msDedup s₁ l = msDedup s₂ l := by
  intro l
  induction l with
  | nil => intro s₁ s₂ _; rfl
  | cons i is ih =>
    intro s₁ s₂ h
    simp only [msDedup]
    by_cases hm : pyLower i.url ∈ s₁
    · rw [if_pos hm, if_pos ((h _).mp hm)]
      exact ih s₁ s₂ h
    · rw [if_neg hm, if_neg (fun hx => hm ((h _).mpr hx))]
      apply congrArg
      apply ih
      intro x
      simp only [List.mem_cons]
      exact or_congr Iff.rfl (h x)

theorem msDedup_not_seen :
    ∀ (l : List Rec) (seen : List String) (r : Rec),
      r ∈ msDedup seen l → pyLower r.url ∉ seen := by
  intro l
  induction l with
  | nil => intro seen r h; cases h
  | cons i is ih =>
    intro seen r h
    simp only [msDedup] at h
    by_cases hm : pyLower i.url ∈ seen
    · rw [if_pos hm] at h
      exact ih seen r h
    · rw [if_neg hm] at h
      rcases List.mem_cons.mp h with h1 | h1
      · rw [h1]; exact hm
      · have := ih _ r h1
        exact fun hx => this (List.mem_cons_of_mem _ hx)

theorem msDedup_pairwise :
    ∀ (l : List Rec) (seen : List String),
      List.Pairwise (fun a b => pyLower a.url ≠ pyLower b.url)
        (msDedup seen l) := by
  intro l
  induction l with
  | nil => intro seen; exact List.Pairwise.nil
  | cons i is ih =>
    intro seen
    simp only [msDedup]
    by_cases hm : pyLower i.url ∈ seen
    · rw [if_pos hm]; exact ih seen
    · rw [if_neg hm]
      refine List.Pairwise.cons ?_ (ih _)
      intro b hb he
      apply msDedup_not_seen is _ b hb
      rw [← he]
      exact List.mem_cons_self _ _

theorem msDedup_mem :
    ∀ (l : List Rec) (seen : List String) (r : Rec),
      r ∈ l → pyLower r.url ∉ seen →
      ∃ r' ∈ msDedup seen l, pyLower r'.url = pyLower r.url := by
  intro l
  induction l with
  | nil => intro seen r h; cases h
  | cons i is ih =>
    intro seen r hr hn
    simp only [msDedup]
    by_cases hm : pyLower i.url ∈ seen
    · rw [if_pos hm]
      rcases List.mem_cons.mp hr with h1 | h1
      · exact absurd (h1 ▸ hm) hn
      · exact ih seen r h1 hn
    · rw [if_neg hm]
      rcases List.mem_cons.mp hr with h1 | h1
      · exact ⟨i, List.mem_cons_self _ _, by rw [h1]⟩
      · by_cases hk : pyLower r.url = pyLower i.url
        · exact ⟨i, List.mem_cons_self _ _, hk.symm⟩
        · obtain ⟨r', hr', he⟩ := ih (pyLower i.url :: seen) r h1
            (fun hx => (List.mem_cons.mp hx).elim hk hn)
          exact ⟨r', List.mem_cons_of_mem _ hr', he⟩

theorem msDedup_seen_cons :
    ∀ (l : List Rec) (u : String) (seen : List String),
      msDedup (u :: seen) l =
        msDedup seen (l.filter (fun x => pyLower x.url != u)) := by
  intro l
  induction l with
  | nil => intro u seen; rfl
  | cons x xs ih =>
    intro u seen
    by_cases hxu : pyLower x.url = u
    · have hfilter : (x :: xs).filter (fun y => pyLower y.url != u) =
          xs.filter (fun y => pyLower y.url != u) := by
        rw [List.filter_cons, if_neg (by simp [hxu])]
      rw [hfilter]
      have hmem : pyLower x.url ∈ u :: seen := by
        rw [hxu]; exact List.mem_cons_self _ _
      simp only [msDedup]
      rw [if_pos hmem]
      exact ih u seen
    · have hfilter : (x :: xs).filter (fun y => pyLower y.url != u) =
          x :: xs.filter (fun y => pyLower y.url != u) := by
        rw [List.filter_cons, if_pos (by simpa using hxu)]
      rw [hfilter]
      simp only [msDedup]
      by_cases hs : pyLower x.url ∈ seen
      · have hmem : pyLower x.url ∈ u :: seen := List.mem_cons_of_mem u hs
        rw [if_pos hmem, if_pos hs]
        exact ih u seen
      · have hmem : pyLower x.url ∉ u :: seen := by
          intro hx
          rcases List.mem_cons.mp hx with h1 | h1
          · exact hxu h1
          · exact hs h1
        rw [if_neg hmem, if_neg hs]
        apply congrArg
        rw [msDedup_congr xs (pyLower x.url :: u :: seen)
          (u :: pyLower x.url :: seen) ?_, ih u (pyLower x.url :: seen)]
        intro y
        simp only [List.mem_cons]
        constructor
        · rintro (h1 | h1 | h1)
          · exact Or.inr (Or.inl h1)
          · exact Or.inl h1
          · exact Or.inr (Or.inr h1)
        · rintro (h1 | h1 | h1)
          · exact Or.inr (Or.inl h1)
          · exact Or.inl h1
          · exact Or.inr (Or.inr h1)

/-! ### Lemmas: `aggDedup` -/

theorem aggKeep_url (e : String) (r : Rec) : (aggKeep e r).url = r.url := rfl

theorem aggDedup_congr :
    ∀ (l : List (String × Rec)) (s₁ s₂ : List String),
      (∀ x, x ∈ s₁ ↔ x ∈ s₂) → aggDedup s₁ l = aggDedup s₂ l := by
  intro l
  induction l with
  | nil => intro s₁ s₂ _; rfl
  | cons p rest ih =>
    obtain ⟨eng, r⟩ := p
    intro s₁ s₂ h
    simp only [aggDedup]
    by_cases hm : normalize_url r.url ∈ s₁
    · rw [if_pos hm, if_pos ((h _).mp hm)]
      exact ih s₁ s₂ h
    · rw [if_neg hm, if_neg (fun hx => hm ((h _).mpr hx))]
      have h2 : ∀ x, x ∈ normalize_url r.url :: s₁ ↔
          x ∈ normalize_url r.url :: s₂ := by
        intro x
        simp only [List.mem_cons]
        exact or_congr Iff.rfl (h x)
      by_cases he : is_excluded_domain r.url = true
      · rw [if_pos he, if_pos he]
        exact ih _ _ h2
      · rw [if_neg he, if_neg he]
        exact congrArg _ (ih _ _ h2)

theorem aggDedup_not_seen :
    ∀ (l : List (String × Rec)) (seen : List String) (r' : Rec),
      r' ∈ aggDedup seen l → normalize_url r'.url ∉ seen := by
  intro l
  induction l with
  | nil => intro seen r' h; cases h
  | cons p rest ih =>
    obtain ⟨eng, r⟩ := p
    intro seen r' h
    simp only [aggDedup] at h
    by_cases hm : normalize_url r.url ∈ seen
    · rw [if_pos hm] at h
      exact ih seen r' h
    · rw [if_neg hm] at h
      by_cases he : is_excluded_domain r.url = true
      · rw [if_pos he] at h
        have := ih _ r' h
        exact fun hx => this (List.mem_cons_of_mem _ hx)
      · rw [if_neg he] at h
        rcases List.mem_cons.mp h with h1 | h1
        · rw [h1, aggKeep_url]; exact hm
        · have := ih _ r' h1
          exact fun hx => this (List.mem_cons_of_mem _ hx)

theorem aggDedup_pairwise :
    ∀ (l : List (String × Rec)) (seen : List String),
      List.Pairwise (fun a b => normalize_url a.url ≠ normalize_url b.url)
        (aggDedup seen l) := by
  intro l
  induction l with
  | nil => intro seen; exact List.Pairwise.nil
  | cons p rest ih =>
    obtain ⟨eng, r⟩ := p
    intro seen
    simp only [aggDedup]
    by_cases hm : normalize_url r.url ∈ seen
    · rw [if_pos hm]; exact ih seen
    · rw [if_neg hm]
      by_cases he : is_excluded_domain r.url = true
      · rw [if_pos he]; exact ih _
      · rw [if_neg he]
        refine List.Pairwise.cons ?_ (ih _)
        intro b hb heq
        apply aggDedup_not_seen rest _ b hb
        rw [← heq, aggKeep_url]
        exact List.mem_cons_self _ _

theorem aggDedup_mem :
    ∀ (l : List (String × Rec)) (seen : List String) (p : String × Rec),
      p ∈ l → (∀ q ∈ l, is_excluded_domain q.2.url = false) →
      normalize_url p.2.url ∉ seen →
      ∃ r' ∈ aggDedup seen l,
        normalize_url r'.url = normalize_url p.2.url := by
  intro l
  induction l with
  | nil => intro seen p h; cases h
  | cons q rest ih =>
    obtain ⟨eng, r⟩ := q
    intro seen p hp hall hn
    have hexcF : is_excluded_domain r.url = false :=
      hall ⟨eng, r⟩ (List.mem_cons_self _ _)
    simp only [aggDedup]
    by_cases hm : normalize_url r.url ∈ seen
    · rw [if_pos hm]
      rcases List.mem_cons.mp hp with h1 | h1
      · exact absurd (show normalize_url p.2.url ∈ seen by rw [h1]; exact hm) hn
      · exact ih seen p h1 (fun q hq => hall q (List.mem_cons_of_mem _ hq)) hn
    · rw [if_neg hm, if_neg (by simp [hexcF])]
      rcases List.mem_cons.mp hp with h1 | h1
      · refine ⟨aggKeep eng r, List.mem_cons_self _ _, ?_⟩
        rw [aggKeep_url, h1]
      · by_cases hk : normalize_url p.2.url = normalize_url r.url
        · refine ⟨aggKeep eng r, List.mem_cons_self _ _, ?_⟩
          rw [aggKeep_url, hk]
        · obtain ⟨r', hr', he⟩ := ih (normalize_url r.url :: seen) p h1
            (fun q hq => hall q (List.mem_cons_of_mem _ hq))
            (fun hx => (List.mem_cons.mp hx).elim hk hn)
          exact ⟨r', List.mem_cons_of_mem _ hr', he⟩

theorem aggDedup_seen_cons :
    ∀ (l : List (String × Rec)) (u : String) (seen : List String),
      aggDedup (u :: seen) l =
        aggDedup seen (l.filter (fun q => normalize_url q.2.url != u)) := by
  intro l
  induction l with
  | nil => intro u seen; rfl
  | cons q rest ih =>
    obtain ⟨eng, r⟩ := q
    intro u seen
    by_cases hru : normalize_url r.url = u
    · have hfilter : ((eng, r) :: rest).filter
          (fun q => normalize_url q.2.url != u) =
          rest.filter (fun q => normalize_url q.2.url != u) := by
        rw [List.filter_cons, if_neg (by simp [hru])]
      rw [hfilter]
      have hmem : normalize_url r.url ∈ u :: seen := by
        rw [hru]; exact List.mem_cons_self _ _
      simp only [aggDedup]
      rw [if_pos hmem]
      exact ih u seen
    · have hfilter : ((eng, r) :: rest).filter
          (fun q => normalize_url q.2.url != u) =
          (eng, r) :: rest.filter (fun q => normalize_url q.2.url != u) := by
        rw [List.filter_cons, if_pos (by simpa using hru)]
      rw [hfilter]
      simp only [aggDedup]
      by_cases hs : normalize_url r.url ∈ seen
      · rw [if_pos (List.mem_cons_of_mem u hs), if_pos hs]
        exact ih u seen
      · have hmem : normalize_url r.url ∉ u :: seen := by
          intro hx
          rcases List.mem_cons.mp hx with h1 | h1
          · exact hru h1
          · exact hs h1
        rw [if_neg hmem, if_neg hs]
        have hcongr : ∀ y, y ∈ normalize_url r.url :: u :: seen ↔
            y ∈ u :: normalize_url r.url :: seen := by
          intro y
          simp only [List.mem_cons]
          exact or_left_comm
        have hswap : aggDedup (normalize_url r.url :: u :: seen) rest =
            aggDedup (normalize_url r.url :: seen)
              (rest.filter (fun q => normalize_url q.2.url != u)) := by
          rw [aggDedup_congr rest (normalize_url r.url :: u :: seen)
            (u :: normalize_url r.url :: seen) hcongr,
            ih u (normalize_url r.url :: seen)]
        by_cases he : is_excluded_domain r.url = true
        · rw [if_pos he, if_pos he]
          exact hswap
        · rw [if_neg he, if_neg he]
          exact congrArg _ hswap

/-! ### Lemmas: `stableSort` -/

theorem mem_insertOrd (le : α → α → Bool) (x : α) :
    ∀ (l : List α) (y : α), y ∈ insertOrd le x l ↔ y = x ∨ y ∈ l := by
  intro l
  induction l with
  | nil => intro y; simp [insertOrd]
  | cons z zs ih =>
    intro y
    simp only [insertOrd]
    by_cases h : le x z = true
    · rw [if_pos h]
      simp only [List.mem_cons]
    · rw [if_neg h]
      simp only [List.mem_cons, ih y]
      tauto

theorem mem_stableSort (le : α → α → Bool) :
    ∀ (l : List α) (y : α), y ∈ stableSort le l ↔ y ∈ l := by
  intro l
  induction l with
  | nil => intro y; simp [stableSort]
  | cons x xs ih =>
    intro y
    simp only [stableSort, mem_insertOrd, List.mem_cons, ih y]

theorem pairwise_insertOrd (le : α → α → Bool)
    (htot : ∀ a b, le a b = true ∨ le b a = true)
    (htrans : ∀ a b c, le a b = true → le b c = true → le a c = true)
    (x : α) :
    ∀ l, List.Pairwise (fun a b => le a b = true) l →
      List.Pairwise (fun a b => le a b = true) (insertOrd le x l) := by
  intro l
  induction l with
  | nil => intro _; simp [insertOrd]
  | cons y ys ih =>
    intro hp
    simp only [insertOrd]
    by_cases hxy : le x y = true
    · rw [if_pos hxy]
      refine List.Pairwise.cons ?_ hp
      intro b hb
      rcases List.mem_cons.mp hb with h1 | h1
      · rw [h1]; exact hxy
      · exact htrans x y b hxy ((List.pairwise_cons.mp hp).1 b h1)
    · rw [if_neg hxy]
      refine List.Pairwise.cons ?_ (ih (List.Pairwise.of_cons hp))
      intro b hb
      rcases (mem_insertOrd le x ys b).mp hb with h1 | h1
      · rw [h1]
        exact (htot x y).resolve_left hxy
      · exact (List.pairwise_cons.mp hp).1 b h1

theorem stableSort_pairwise (le : α → α → Bool)
    (htot : ∀ a b, le a b = true ∨ le b a = true)
    (htrans : ∀ a b c, le a b = true → le b c = true → le a c = true) :
    ∀ l, List.Pairwise (fun a b => le a b = true) (stableSort le l) := by
  intro l
  induction l with
  | nil => exact List.Pairwise.nil
  | cons x xs ih => exact pairwise_insertOrd le htot htrans x _ ih

theorem insertOrd_all (le : α → α → Bool) (x : α) :
    ∀ l, (∀ b ∈ l, le x b = true) → insertOrd le x l = x :: l := by
  intro l
  induction l with
  | nil => intro _; rfl
  | cons y ys _ =>
    intro h
    simp only [insertOrd]
    rw [if_pos (h y (List.mem_cons_self y ys))]

theorem stableSort_all (le : α → α → Bool) :
    ∀ l, (∀ a ∈ l, ∀ b ∈ l, le a b = true) → stableSort le l = l := by
  intro l
  induction l with
  | nil => intro _; rfl
  | cons x xs ih =>
    intro h
    simp only [stableSort]
    rw [ih (fun a ha b hb =>
      h a (List.mem_cons_of_mem x ha) b (List.mem_cons_of_mem x hb))]
    exact insertOrd_all le x xs
      (fun b hb => h x (List.mem_cons_self x xs) b (List.mem_cons_of_mem x hb))

theorem msDedup_id :
    ∀ (l : List Rec) (seen : List String),
      List.Pairwise (fun a b => pyLower a.url ≠ pyLower b.url) l →
      (∀ r ∈ l, pyLower r.url ∉ seen) → msDedup seen l = l := by
  intro l
  induction l with
  | nil => intro seen _ _; rfl
  | cons i is ih =>
    intro seen hp hs
    simp only [msDedup]
    rw [if_neg (hs i (List.mem_cons_self i is))]
    apply congrArg
    apply ih (pyLower i.url :: seen) (List.Pairwise.of_cons hp)
    intro r hr hx
    rcases List.mem_cons.mp hx with h1 | h1
    · exact (List.pairwise_cons.mp hp).1 r hr h1.symm
    · exact hs r (List.mem_cons_of_mem i hr) h1

/-! ### Lemmas: ranking comparisons -/

theorem lexLe_iff (p q : Nat × Nat) :
    lexLe p q = true ↔ p.1 < q.1 ∨ (p.1 = q.1 ∧ p.2 ≤ q.2) := by
  simp [lexLe]

theorem brandLangLe_total :
    ∀ a b : MainItem, brandLangLe a b = true ∨ brandLangLe b a = true := by
  intro a b
  simp only [brandLangLe, lexLe_iff]
  omega

theorem brandLangLe_trans :
    ∀ a b c : MainItem, brandLangLe a b = true → brandLangLe b c = true →
      brandLangLe a c = true := by
  intro a b c
  simp only [brandLangLe, lexLe_iff]
  omega

theorem sizeDescLe_total :
    ∀ a b : MainItem, sizeDescLe a b = true ∨ sizeDescLe b a = true := by
  intro a b
  simp only [sizeDescLe, decide_eq_true_eq]
  omega

theorem sizeDescLe_trans :
    ∀ a b c : MainItem, sizeDescLe a b = true → sizeDescLe b c = true →
      sizeDescLe a c = true := by
  intro a b c
  simp only [sizeDescLe, decide_eq_true_eq]
  omega

theorem key1_assign (szOf : String → Option Nat) (r : MainItem) :
    key1 { r with file_size := szOf r.url } = key1 r := rfl

theorem rank_assign_eq (szOf : String → Option Nat) (l : List MainItem) :
    rank_assign szOf l = l.map (fun r => { r with file_size := szOf r.url }) := by
  unfold rank_assign
  by_cases h : l.isEmpty
  · rw [if_pos h]
    have he : l = [] := by
      cases l with
      | nil => rfl
      | cons x xs => simp [List.isEmpty] at h
    rw [he]
    rfl
  · rw [if_neg h]

/-! ### Lemmas: query-builder language fallback -/

theorem termsTableOf_unsupported (language : String)
    (h : language ∉ (["en", "tr", "ru", "zh"] : List String)) :
    termsTableOf language = termsTableOf "en" := by
  have h1 : language ≠ "en" := fun e => h (by rw [e]; decide)
  have h2 : language ≠ "tr" := fun e => h (by rw [e]; decide)
  have h3 : language ≠ "ru" := fun e => h (by rw [e]; decide)
  have h4 : language ≠ "zh" := fun e => h (by rw [e]; decide)
  have hnone : SEARCH_TERMS_BY_LANG.lookup language = none := by
    simp only [SEARCH_TERMS_BY_LANG, List.lookup,
      beq_eq_false_iff_ne.mpr h1, beq_eq_false_iff_ne.mpr h2,
      beq_eq_false_iff_ne.mpr h3, beq_eq_false_iff_ne.mpr h4]
  unfold termsTableOf
  rw [hnone]
  rfl

theorem coreTableOf_unsupported (language : String)
    (h : language ∉ (["en", "tr", "ru", "zh"] : List String)) :
    coreTableOf language = coreTableOf "en" := by
  have h1 : language ≠ "en" := fun e => h (by rw [e]; decide)
  have h2 : language ≠ "tr" := fun e => h (by rw [e]; decide)
  have h3 : language ≠ "ru" := fun e => h (by rw [e]; decide)
  have h4 : language ≠ "zh" := fun e => h (by rw [e]; decide)
  have hnone : CATEGORY_CORE_KEYWORDS_BY_LANG.lookup language = none := by
    simp only [CATEGORY_CORE_KEYWORDS_BY_LANG, List.lookup,
      beq_eq_false_iff_ne.mpr h1, beq_eq_false_iff_ne.mpr h2,
      beq_eq_false_iff_ne.mpr h3, beq_eq_false_iff_ne.mpr h4]
  unfold coreTableOf
  rw [hnone]
  rfl

theorem coreKeywordOf_unknown (language category : String)
    (h : category ∉ (["parts_catalog", "service_manual", "electrical_diagram",
      "hydraulic_diagram", "troubleshooting"] : List String)) :
    coreKeywordOf language category = "parts" := by
  have h1 : category ≠ "parts_catalog" := fun e => h (by rw [e]; decide)
  have h2 : category ≠ "service_manual" := fun e => h (by rw [e]; decide)
  have h3 : category ≠ "electrical_diagram" := fun e => h (by rw [e]; decide)
  have h4 : category ≠ "hydraulic_diagram" := fun e => h (by rw [e]; decide)
  have h5 : category ≠ "troubleshooting" := fun e => h (by rw [e]; decide)
  have hlk : ∀ t ∈ CATEGORY_CORE_KEYWORDS_BY_LANG.map Prod.snd,
      t.lookup category = none := by
    intro t ht
    simp only [CATEGORY_CORE_KEYWORDS_BY_LANG, List.map, List.mem_cons,
      List.not_mem_nil, or_false] at ht
    rcases ht with h | h | h | h
    all_goals rw [h]
    all_goals simp only [List.lookup,
      beq_eq_false_iff_ne.mpr h1, beq_eq_false_iff_ne.mpr h2,
      beq_eq_false_iff_ne.mpr h3, beq_eq_false_iff_ne.mpr h4,
      beq_eq_false_iff_ne.mpr h5]
  have hcases : coreTableOf language ∈ CATEGORY_CORE_KEYWORDS_BY_LANG.map Prod.snd := by
    unfold coreTableOf
    by_cases e1 : language = "en"
    · subst e1; decide
    · by_cases e2 : language = "tr"
      · subst e2; decide
      · by_cases e3 : language = "ru"
        · subst e3; decide
        · by_cases e4 : language = "zh"
          · subst e4; decide
          · have : CATEGORY_CORE_KEYWORDS_BY_LANG.lookup language = none := by
              simp only [CATEGORY_CORE_KEYWORDS_BY_LANG, List.lookup,
                beq_eq_false_iff_ne.mpr e1, beq_eq_false_iff_ne.mpr e2,
                beq_eq_false_iff_ne.mpr e3, beq_eq_false_iff_ne.mpr e4]
            rw [this]
            decide
  unfold coreKeywordOf
  rw [hlk (coreTableOf language) hcases]
  rfl

theorem build_query_lang_congr (brand model : Option String)
    (category filetype engine language : String)
    (hterms : termsTableOf language = termsTableOf "en")
    (hcore : coreTableOf language = coreTableOf "en") :
    build_search_query brand model category filetype engine language =
      build_search_query brand model category filetype engine "en" := by
  simp only [build_search_query, queryParts, corePart, variantPart,
    extract_variant_words, coreKeywordOf, hterms, hcore]

/-! ### Lemmas: the polling loop -/

theorem poll_loop_attempts (poll : Nat → Except String PollBody)
    (decode : String → List Rec) :
    ∀ (rem i : Nat), (poll_loop poll decode i rem).2 ≤ i + rem := by
  intro rem
  induction rem with
  | zero => intro i; simp [poll_loop]
  | succ n ih =>
    intro i
    cases hp : poll i with
    | error e =>
      simp only [poll_loop, hp]
      omega
    | ok body =>
      by_cases hd : body.done = true
      · simp only [poll_loop, hp, if_pos hd]
        omega
      · simp only [poll_loop, hp, if_neg hd]
        have := ih (i + 1)
        omega

theorem poll_loop_timeout (poll : Nat → Except String PollBody)
    (decode : String → List Rec) :
    ∀ (rem i : Nat),
      (∀ j, i ≤ j → j < i + rem → ∀ b, poll j = Except.ok b →
        b.done = false) →
      (poll_loop poll decode i rem).1 = [] := by
  intro rem
  induction rem with
  | zero => intro i _; rfl
  | succ n ih =>
    intro i h
    cases hp : poll i with
    | error e => simp only [poll_loop, hp]
    | ok body =>
      have hd : body.done = false :=
        h i (Nat.le_refl i) (by omega) body hp
      simp only [poll_loop, hp, hd, Bool.false_eq_true, if_false]
      exact ih (i + 1) (fun j hj1 hj2 b hb => h j (by omega) (by omega) b hb)

/-! ### Claim theorems -/

/-- C5: `build_search_query(brand="caterpillar", model=None,
category="parts_catalog", language="en")` returns a string whose
space-separated tokens are exactly the quoted mandatory terms
`"caterpillar"` and `"parts"`, the unquoted variant words (the union of the
words of every English phrasing of the category minus the core keyword and
the stop list — including `catalog`, `manual`, `book` and `breakdown`), and
the token `filetype:pdf`. -/
theorem c5_query_scenario :
    pySplit (build_search_query (some "caterpillar") none "parts_catalog"
      "pdf" "google" "en") =
      ["\"caterpillar\"", "\"parts\"", "book", "breakdown", "catalog",
       "catalogue", "diagram", "exploded", "illustrated", "manual", "spare",
       "filetype:pdf"] := by
  decide

/-- C7: `_get_iam_token` returns a credential with at least 60 seconds of
validity left relative to its recorded expiry; it returns the cached token
unchanged whenever the current time is more than 60 seconds before the
recorded expiry, and signs a fresh assertion (recording expiry `now + 3600`)
otherwise. -/
theorem c7_iam_token_cache :
    ∀ (st : YandexState) (now : Int) (fresh : String),
      60 ≤ (get_iam_token st now fresh).2.token_expires - now ∧
      (∀ t, st.token = some t → t ≠ "" → now < st.token_expires - 60 →
        get_iam_token st now fresh = (t, st)) ∧
      (¬ (tokenTruthy st.token = true ∧ now < st.token_expires - 60) →
        get_iam_token st now fresh =
          (fresh, { token := some fresh, token_expires := now + 3600 })) := by
  intro st now fresh
  refine ⟨?_, ?_, ?_⟩
  · by_cases h : tokenTruthy st.token = true ∧ now < st.token_expires - 60
    · unfold get_iam_token
      rw [if_pos h]
      obtain ⟨-, h2⟩ := h
      show 60 ≤ st.token_expires - now
      omega
    · unfold get_iam_token
      rw [if_neg h]
      show 60 ≤ now + 3600 - now
      omega
  · intro t ht hne hlt
    unfold get_iam_token
    have hc : tokenTruthy st.token = true ∧ now < st.token_expires - 60 := by
      refine ⟨?_, hlt⟩
      rw [ht]
      simp only [tokenTruthy]
      exact decide_eq_true hne
    rw [if_pos hc, ht]
    rfl
  · intro h
    unfold get_iam_token
    rw [if_neg h]

/-- Witness for C7: a cached token with expiry 1000 is returned unchanged at
time 0; an almost-expired one (expiry 30) is replaced by a fresh token with
expiry `0 + 3600`. -/
theorem c7_iam_token_cache_witness :
    get_iam_token ⟨some "tok", 1000⟩ 0 "new" = ("tok", ⟨some "tok", 1000⟩) ∧
    get_iam_token ⟨some "tok", 30⟩ 0 "new" = ("new", ⟨some "new", 3600⟩) := by
  constructor
  · exact (c7_iam_token_cache ⟨some "tok", 1000⟩ 0 "new").2.1 "tok" rfl
      (by decide) (by decide)
  · exact (c7_iam_token_cache ⟨some "tok", 30⟩ 0 "new").2.2 (by decide)

/-- C8: the `PENDING` polling loop issues at most 30 polls (each preceded by
a fixed one-second sleep), so it always terminates; if every poll inside the
ceiling reports `done=false`, the search returns the empty result list. -/
theorem c8_poll_ceiling :
    ∀ (poll : Nat → Except String PollBody) (decode : String → List Rec),
      (yandex_poll poll decode).2 ≤ POLL_CEILING ∧
      ((∀ j, j < POLL_CEILING → ∀ b, poll j = Except.ok b →
          b.done = false) →
        (yandex_poll poll decode).1 = []) := by
  intro poll decode
  constructor
  · have h := poll_loop_attempts poll decode POLL_CEILING 0
    simpa [yandex_poll] using h
  · intro h
    exact poll_loop_timeout poll decode POLL_CEILING 0
      (fun j hj1 hj2 b hb => h j (by omega) b hb)

/-- Witness for C8: a backend that never reports `done=true` exhausts the
ceiling and the search yields `[]`. -/
theorem c8_poll_ceiling_witness :
    (yandex_poll (fun _ => Except.ok ⟨false, ""⟩) (fun _ => [])).2 ≤
      POLL_CEILING ∧
    (yandex_poll (fun _ => Except.ok ⟨false, ""⟩) (fun _ => [])).1 = [] := by
  refine ⟨(c8_poll_ceiling _ _).1, (c8_poll_ceiling _ _).2 ?_⟩
  intro j hj b hb
  have hb2 : (⟨false, ""⟩ : PollBody) = b := by injection hb
  rw [← hb2]

/-- C9: `get_cached_results` returns `None` when no row exists for the key,
returns `None` when the recorded expiry is not strictly in the future
(`expires_at > datetime('now')` fails), and returns the full stored result
list when the entry is unexpired — never a partial merge. -/
theorem c9_get_cached_semantics :
    ∀ (store : CacheStore) (engine query : String)
      (language doc_type : Option String) (page : Option Int) (now : Int),
      (store (mkCacheKey engine query language doc_type page) = none →
        get_cached_results store engine query language doc_type page now =
          none) ∧
      (∀ e, store (mkCacheKey engine query language doc_type page) = some e →
        e.expires_at ≤ now →
        get_cached_results store engine query language doc_type page now =
          none) ∧
      (∀ e, store (mkCacheKey engine query language doc_type page) = some e →
        now < e.expires_at →
        get_cached_results store engine query language doc_type page now =
          some e.results) := by
  intro store engine query language doc_type page now
  refine ⟨fun h => ?_, fun e he hexp => ?_, fun e he hlt => ?_⟩
  · simp only [get_cached_results, h]
  · simp only [get_cached_results, he]
    rw [if_neg (by omega)]
  · simp only [get_cached_results, he]
    rw [if_pos hlt]

/-- Witness for C9: an absent key yields `None`; an entry expired at 50 is
not returned at time 60; an entry expiring at 50 is fully returned at
time 40. -/
theorem c9_get_cached_semantics_witness :
    get_cached_results (fun _ => none) "serper" "q" none none none 0 =
      none ∧
    get_cached_results (fun _ => some ⟨[], 0, 50⟩) "serper" "q" none none
      none 60 = none ∧
    get_cached_results (fun _ => some ⟨[{ url := "a" }], 1, 50⟩) "serper"
      "q" none none none 40 = some [{ url := "a" }] := by
  refine ⟨?_, ?_, ?_⟩
  · exact (c9_get_cached_semantics (fun _ => none) "serper" "q" none none
      none 0).1 rfl
  · exact (c9_get_cached_semantics (fun _ => some ⟨[], 0, 50⟩) "serper" "q"
      none none none 60).2.1 ⟨[], 0, 50⟩ rfl (by decide)
  · exact (c9_get_cached_semantics (fun _ => some ⟨[{ url := "a" }], 1, 50⟩)
      "serper" "q" none none none 40).2.2 ⟨[{ url := "a" }], 1, 50⟩ rfl
      (by decide)

/-- C10: on the first write for a key `save_to_cache` stores the result list
verbatim (no deduplication, empty-URL records kept); when a row already
exists it appends exactly the incoming records whose lowercased URL is
non-empty and not among the lowercased URLs already present. -/
theorem c10_first_write_verbatim :
    ∀ (store : CacheStore) (engine query : String)
      (language doc_type : Option String) (page : Option Int)
      (results : List Rec) (now : Int),
      (store (mkCacheKey engine query language doc_type page) = none →
        save_to_cache store engine query language doc_type page results now
          (mkCacheKey engine query language doc_type page) =
          some ⟨results, results.length, now + ttlSeconds⟩) ∧
      (∀ e, store (mkCacheKey engine query language doc_type page) = some e →
        save_to_cache store engine query language doc_type page results now
          (mkCacheKey engine query language doc_type page) =
          some ⟨e.results ++
              mergeNewUnique (e.results.map (fun r => pyLower r.url)) results,
            (e.results ++
              mergeNewUnique (e.results.map (fun r => pyLower r.url))
                results).length,
            now + ttlSeconds⟩) ∧
      (∀ (seen : List String) (r : Rec), r ∈ mergeNewUnique seen results →
        pyLower r.url ≠ "" ∧ pyLower r.url ∉ seen) := by
  intro store engine query language doc_type page results now
  refine ⟨fun h => ?_, fun e he => ?_,
    fun seen r hr => mergeNewUnique_mem results seen r hr⟩
  · simp only [save_to_cache, h]
    simp
  · simp only [save_to_cache, he]
    simp

/-- Witness for C10: a first write stores a list with an empty URL and a
case-duplicate URL verbatim (all three records, count 3); a merge into an
existing row holding `a` drops both the empty-URL record and the
case-duplicate of `a`. -/
theorem c10_first_write_verbatim_witness :
    save_to_cache (fun _ => none) "serper" "q" none none none
      [{ url := "" }, { url := "A" }, { url := "a" }] 5
      (mkCacheKey "serper" "q" none none none) =
      some ⟨[{ url := "" }, { url := "A" }, { url := "a" }], 3,
        5 + ttlSeconds⟩ ∧
    save_to_cache (fun _ => some ⟨[{ url := "a" }], 1, 0⟩) "serper" "q"
      none none none [{ url := "" }, { url := "A" }, { url := "b" }] 5
      (mkCacheKey "serper" "q" none none none) =
      some ⟨[{ url := "a" }, { url := "b" }], 2, 5 + ttlSeconds⟩ := by
  constructor
  · exact (c10_first_write_verbatim (fun _ => none) "serper" "q" none none
      none [{ url := "" }, { url := "A" }, { url := "a" }] 5).1 rfl
  · exact (c10_first_write_verbatim (fun _ => some ⟨[{ url := "a" }], 1, 0⟩)
      "serper" "q" none none none
      [{ url := "" }, { url := "A" }, { url := "b" }] 5).2.1
      ⟨[{ url := "a" }], 1, 0⟩ rfl

/-- C1 counterexample: saving `[http://x.com/a]` and then `[https://x.com/a]`
under the same key leaves an entry with TWO records, although the two URLs
differ only by protocol and so the union by *normalized* URL has size 1 —
`save_to_cache` merges by exact lowercased URL, not by normalized URL, so the
claimed size `|R1 ∪ R2|` by normalized URL is violated. -/
theorem c1_cache_merge_counterexample :
    ((save_to_cache
        (save_to_cache (fun _ => none) "serper" "q" none none none
          [{ url := "http://x.com/a", title := "t1" }] 0)
        "serper" "q" none none none
        [{ url := "https://x.com/a", title := "t2" }] 5)
      (mkCacheKey "serper" "q" none none none)).map
        (fun e => e.results.length) = some 2 ∧
    (dedupFirst []
      (([{ url := "http://x.com/a", title := "t1" },
         { url := "https://x.com/a", title := "t2" }] : List Rec).map
        (fun r => normalize_url r.url))).length = 1 := by
  exact ⟨by decide, by decide⟩

/-- C1 amended: writing `R1` and then `R2` to a fresh cache key leaves an
entry whose record list is `R1` with the genuinely new records of `R2`
appended (the existing entry is never replaced wholesale); provided every
URL is non-empty and `R1` holds no duplicate *lowercased* URLs, the entry's
lowercased URL list is exactly the first-occurrence union of `R1 ++ R2` by
lowercased (not normalized) URL — in particular its size is `|R1 ∪ R2|` by
lowercased URL and it covers every URL of `R1` and of `R2`. -/
theorem c1_cache_merge_amended :
    ∀ (store : CacheStore) (engine query : String)
      (language doc_type : Option String) (page : Option Int)
      (R1 R2 : List Rec) (t1 t2 : Int),
      store (mkCacheKey engine query language doc_type page) = none →
      (R1.map (fun r => pyLower r.url)).Nodup →
      (∀ r ∈ R1 ++ R2, pyLower r.url ≠ "") →
      ∀ e, save_to_cache
          (save_to_cache store engine query language doc_type page R1 t1)
          engine query language doc_type page R2 t2
          (mkCacheKey engine query language doc_type page) = some e →
        e.results =
          R1 ++ mergeNewUnique (R1.map (fun r => pyLower r.url)) R2 ∧
        e.results.map (fun r => pyLower r.url) =
          dedupFirst [] ((R1 ++ R2).map (fun r => pyLower r.url)) ∧
        e.results.length =
          (dedupFirst [] ((R1 ++ R2).map (fun r => pyLower r.url))).length ∧
        (∀ r ∈ R1 ++ R2, ∃ r' ∈ e.results,
          pyLower r'.url = pyLower r.url) := by
  intro store engine query language doc_type page R1 R2 t1 t2 h0 hnd hne e
    hsave
  have h1 : save_to_cache store engine query language doc_type page R1 t1
      (mkCacheKey engine query language doc_type page) =
      some ⟨R1, R1.length, t1 + ttlSeconds⟩ := by
    simp only [save_to_cache, h0]
    simp
  have h2 : ∀ store2 : CacheStore,
      store2 (mkCacheKey engine query language doc_type page) =
        some ⟨R1, R1.length, t1 + ttlSeconds⟩ →
      save_to_cache store2 engine query language doc_type page R2 t2
        (mkCacheKey engine query language doc_type page) =
        some ⟨R1 ++ mergeNewUnique (R1.map (fun r => pyLower r.url)) R2,
          (R1 ++ mergeNewUnique (R1.map (fun r => pyLower r.url)) R2).length,
          t2 + ttlSeconds⟩ := by
    intro store2 hs2
    simp only [save_to_cache, hs2]
    simp
  rw [h2 (save_to_cache store engine query language doc_type page R1 t1) h1]
    at hsave
  have he := Option.some.inj hsave
  subst he
  have hmap : (R1 ++ mergeNewUnique (R1.map (fun r => pyLower r.url))
      R2).map (fun r => pyLower r.url) =
      dedupFirst [] ((R1 ++ R2).map (fun r => pyLower r.url)) :=
    calc (R1 ++ mergeNewUnique (R1.map (fun r => pyLower r.url)) R2).map
          (fun r => pyLower r.url)
        = R1.map (fun r => pyLower r.url) ++
            (mergeNewUnique (R1.map (fun r => pyLower r.url)) R2).map
              (fun r => pyLower r.url) := by
          rw [List.map_append]
      _ = R1.map (fun r => pyLower r.url) ++
            dedupFirst (R1.map (fun r => pyLower r.url))
              (R2.map (fun r => pyLower r.url)) := by
          rw [mergeNewUnique_map_lower R2 (R1.map (fun r => pyLower r.url))
            (fun r hr => hne r (List.mem_append_right R1 hr))]
      _ = dedupFirst []
            (R1.map (fun r => pyLower r.url) ++
              R2.map (fun r => pyLower r.url)) := by
          rw [dedupFirst_append (R1.map (fun r => pyLower r.url))
            (R2.map (fun r => pyLower r.url)) []]
          congr 1
          · exact (dedupFirst_id (R1.map (fun r => pyLower r.url)) [] hnd
              (fun x _ => List.not_mem_nil x)).symm
          · exact dedupFirst_congr (R2.map (fun r => pyLower r.url))
              (R1.map (fun r => pyLower r.url))
              (R1.map (fun r => pyLower r.url) ++ []) (fun x => by simp)
      _ = dedupFirst [] ((R1 ++ R2).map (fun r => pyLower r.url)) := by
          rw [List.map_append]
  refine ⟨rfl, hmap, ?_, ?_⟩
  · rw [← hmap, List.length_map]
  · intro r hr
    have hmem : pyLower r.url ∈
        dedupFirst [] ((R1 ++ R2).map (fun r => pyLower r.url)) := by
      rw [mem_dedupFirst]
      exact ⟨List.mem_map_of_mem _ hr, List.not_mem_nil _⟩
    rw [← hmap] at hmem
    obtain ⟨r', hr', he'⟩ := List.mem_map.mp hmem
    exact ⟨r', hr', he'⟩

/-- Witness for C1 (amended): the spec scenario — first call returns URLs
`{a, b}`, the second `{b, c}`; the cache ends up holding exactly `{a, b, c}`,
with `b` kept from the first call and the duplicate from the second dropped
whole. -/
theorem c1_cache_merge_amended_witness :
    (⟨[{ url := "a", title := "A1" }, { url := "b", title := "B1" },
        { url := "c", title := "C2" }], 3, 7 + ttlSeconds⟩ :
      CacheEntry).results.map (fun r => pyLower r.url) =
      dedupFirst []
        (([{ url := "a", title := "A1" }, { url := "b", title := "B1" },
           { url := "b", title := "B2" }, { url := "c", title := "C2" }] :
          List Rec).map (fun r => pyLower r.url)) ∧
    dedupFirst []
      (([{ url := "a", title := "A1" }, { url := "b", title := "B1" },
         { url := "b", title := "B2" }, { url := "c", title := "C2" }] :
        List Rec).map (fun r => pyLower r.url)) = ["a", "b", "c"] := by
  constructor
  · exact (c1_cache_merge_amended (fun _ => none) "serper" "q" none none
      none
      [{ url := "a", title := "A1" }, { url := "b", title := "B1" }]
      [{ url := "b", title := "B2" }, { url := "c", title := "C2" }] 3 7 rfl
      (by decide) (by decide)
      ⟨[{ url := "a", title := "A1" }, { url := "b", title := "B1" },
        { url := "c", title := "C2" }], 3, 7 + ttlSeconds⟩
      (by decide)).2.1
  · decide

/-- C2 counterexample: with probed sizes 100 for the non-brand-match URL and
50 for the brand-match URL, the final merged list puts the
`brand_match = false` entry first — `brand_match` is not the primary ranking
key of the output, because the second stable sort re-orders everything by
file size descending. -/
theorem c2_ranking_counterexample :
    (rank_merged (fun u => if u = "a" then some 100 else some 50)
      [{ url := "a", brand_match := false, language := "en" },
       { url := "b", brand_match := true, language := "en" }]).map
      (fun r => r.brand_match) = [false, true] := by
  decide

/-- C2 amended: the final merged list is ordered primarily by probed file
size descending (absent sizes count as 0); the `(brand_match,
language == 'en')` order of the first sort survives only as a tie-break
among equal sizes, because the second sort is stable.  In particular when no
entry has a probed size (every size absent), brand-matching entries come
strictly before non-matching ones, with the language key second — as in the
spec's own two-element scenario. -/
theorem c2_ranking_amended :
    ∀ (szOf : String → Option Nat) (rs : List MainItem),
      List.Pairwise (fun a b => sizeVal b ≤ sizeVal a)
        (rank_merged szOf rs) ∧
      ((∀ u, szOf u = none) →
        List.Pairwise (fun a b => brandLangLe a b = true)
          (rank_merged szOf rs)) := by
  intro szOf rs
  constructor
  · unfold rank_merged
    refine List.Pairwise.sublist (List.take_sublist _ _) ?_
    have h := stableSort_pairwise sizeDescLe sizeDescLe_total
      sizeDescLe_trans (rank_assign szOf (stableSort brandLangLe rs))
    exact h.imp (fun hab => of_decide_eq_true hab)
  · intro hnone
    unfold rank_merged
    refine List.Pairwise.sublist (List.take_sublist _ _) ?_
    have hassign : rank_assign szOf (stableSort brandLangLe rs) =
        (stableSort brandLangLe rs).map
          (fun r => { r with file_size := szOf r.url }) :=
      rank_assign_eq _ _
    have hall : ∀ a ∈ rank_assign szOf (stableSort brandLangLe rs),
        ∀ b ∈ rank_assign szOf (stableSort brandLangLe rs),
        sizeDescLe a b = true := by
      intro a ha b hb
      rw [hassign] at ha hb
      obtain ⟨a0, -, rfl⟩ := List.mem_map.mp ha
      obtain ⟨b0, -, rfl⟩ := List.mem_map.mp hb
      simp [sizeDescLe, sizeVal, hnone]
    rw [stableSort_all sizeDescLe _ hall, hassign]
    rw [List.pairwise_map]
    have h := stableSort_pairwise brandLangLe brandLangLe_total
      brandLangLe_trans rs
    exact h.imp (fun hab => hab)

/-- Witness for C2 (amended): with no probed sizes, the spec scenario
`[{brand_match:false}, {brand_match:true}]` comes out sorted with the
brand-matching entry first. -/
theorem c2_ranking_amended_witness :
    List.Pairwise (fun a b => brandLangLe a b = true)
      (rank_merged (fun _ => none)
        [{ url := "a", brand_match := false, language := "en" },
         { url := "b", brand_match := true, language := "en" }]) ∧
    (rank_merged (fun _ => none)
      [{ url := "a", brand_match := false, language := "en" },
       { url := "b", brand_match := true, language := "en" }]).map
      (fun r => r.brand_match) = [true, false] := by
  constructor
  · exact (c2_ranking_amended (fun _ => none)
      [{ url := "a", brand_match := false, language := "en" },
       { url := "b", brand_match := true, language := "en" }]).2
      (fun _ => rfl)
  · decide

/-- C3 counterexample: two backends contribute the same URL up to protocol
(`http://x.com/a` vs `https://x.com/a`), yet
`MultiSearchCoordinator.search_all_engines` keeps BOTH entries in its merged
list — that dedup loop keys on the exact lowercased URL only, not on the
normalized URL, although the two URLs have equal `normalize_url` values. -/
theorem c3_dedup_counterexample :
    ((search_all_engines false false (fun _ => none) "q" none none none
      [("serper", Except.ok [{ url := "http://x.com/a" }]),
       ("brave", Except.ok [{ url := "https://x.com/a" }])]
      0).1).merged_results.length = 2 ∧
    normalize_url "http://x.com/a" = normalize_url "https://x.com/a" := by
  exact ⟨by decide, by decide⟩

/-- C3 amended: in `MultiEngineAggregator.search_all_engines` the merged
list never holds two entries with the same *normalized* URL
(protocol/`www.`/trailing-slash/percent/case-insensitive), the first
contribution with a given normalized URL wins and later duplicates are
dropped whole, and (absent excluded domains) every contributed URL is
represented; in `MultiSearchCoordinator.search_all_engines` the same holds
but keyed on the exact *lowercased* URL only, so URLs that differ by
protocol, `www.`, trailing slash or percent-encoding stay separate there. -/
theorem c3_dedup_amended :
    (∀ contribs : List (String × Except String (List Rec)),
      List.Pairwise (fun a b => normalize_url a.url ≠ normalize_url b.url)
        (agg_merged contribs)) ∧
    (∀ (eng : String) (r : Rec) (rest : List (String × Rec)),
      is_excluded_domain r.url = false →
      aggDedup [] ((eng, r) :: rest) =
        aggKeep eng r ::
          aggDedup [] (rest.filter
            (fun q => normalize_url q.2.url != normalize_url r.url))) ∧
    (∀ (flat : List (String × Rec)) (p : String × Rec), p ∈ flat →
      (∀ q ∈ flat, is_excluded_domain q.2.url = false) →
      ∃ r' ∈ aggDedup [] flat,
        normalize_url r'.url = normalize_url p.2.url) ∧
    (∀ l : List Rec,
      List.Pairwise (fun a b => pyLower a.url ≠ pyLower b.url)
        (msDedup [] l)) ∧
    (∀ (i : Rec) (is : List Rec),
      msDedup [] (i :: is) =
        i :: msDedup []
          (is.filter (fun x => pyLower x.url != pyLower i.url))) ∧
    (∀ (l : List Rec) (r : Rec), r ∈ l →
      ∃ r' ∈ msDedup [] l, pyLower r'.url = pyLower r.url) := by
  refine ⟨?_, ?_, ?_, ?_, ?_, ?_⟩
  · intro contribs
    exact List.Pairwise.sublist (List.take_sublist _ _)
      (aggDedup_pairwise (aggFlatten contribs) [])
  · intro eng r rest hexc
    simp only [aggDedup]
    rw [if_neg (List.not_mem_nil _), if_neg (by simp [hexc]),
      aggDedup_seen_cons rest (normalize_url r.url) []]
  · intro flat p hp hall
    exact aggDedup_mem flat [] p hp hall (List.not_mem_nil _)
  · intro l
    exact msDedup_pairwise l []
  · intro i is
    simp only [msDedup]
    rw [if_neg (List.not_mem_nil _),
      msDedup_seen_cons is (pyLower i.url) []]
  · intro l r hr
    exact msDedup_mem l [] r hr (List.not_mem_nil _)

/-- Witness for C3 (amended): the aggregator's loop keeps the first
contribution of `x.com/a` and drops whole the later
protocol/`www.`/trailing-slash variant from the other backend. -/
theorem c3_dedup_amended_witness :
    aggDedup []
      [("google", { url := "http://x.com/a" }),
       ("brave", { url := "https://www.x.com/a/" })] =
      aggKeep "google" { url := "http://x.com/a" } ::
        aggDedup []
          ([("brave", ({ url := "https://www.x.com/a/" } : Rec))].filter
            (fun q => normalize_url q.2.url !=
              normalize_url ({ url := "http://x.com/a" } : Rec).url)) ∧
    aggDedup []
      [("google", { url := "http://x.com/a" }),
       ("brave", { url := "https://www.x.com/a/" })] =
      [aggKeep "google" { url := "http://x.com/a" }] := by
  constructor
  · exact (c3_dedup_amended).2.1 "google" { url := "http://x.com/a" }
      [("brave", { url := "https://www.x.com/a/" })] (by decide)
  · decide

/-- C4 counterexample: backend `a` raises, backend `b` succeeds with N = 2
results — but the merged list holds only one of them, because the two
results share a lowercased URL and the later duplicate is dropped; the
per-backend report still shows `b` successful with count 2.  So "the call
returns those N results in the merged list" fails as universally stated. -/
theorem c4_partial_failure_counterexample :
    ((search_all_engines false false (fun _ => none) "q" none none none
      [("a", Except.error "boom"),
       ("b", Except.ok [{ url := "U", title := "1" },
                        { url := "u", title := "2" }])] 0).1).engines.map
      (fun rep => (rep.count, rep.error)) = [(0, some "boom"), (2, none)] ∧
    ((search_all_engines false false (fun _ => none) "q" none none none
      [("a", Except.error "boom"),
       ("b", Except.ok [{ url := "U", title := "1" },
                        { url := "u", title := "2" }])]
      0).1).merged_results.length = 1 := by
  exact ⟨by decide, by decide⟩

/-- C4 amended: `search_all_engines` is total (the embedding is a function,
matching the code's catch-all per-backend exception handling), and when one
backend's adapter raises while the other succeeds with N results whose
lowercased URLs are pairwise distinct, the call reports the failing backend
with the error string, zero results and no cache hit, reports the succeeding
backend successful with count N, and returns exactly those N results (tagged
with their engine) as the merged list. -/
theorem c4_partial_failure_amended :
    ∀ (selfUC uc : Bool) (query : String) (language doc_type : Option String)
      (page : Option Int) (now : Int) (nameA nameB e : String)
      (rs : List Rec),
      List.Pairwise (fun a b => pyLower a.url ≠ pyLower b.url) rs →
      ((search_all_engines selfUC uc (fun _ => none) query language doc_type
          page [(nameA, Except.error e), (nameB, Except.ok rs)]
          now).1).engines =
        [⟨nameA, [], 0, false, some e⟩,
         ⟨nameB, rs, rs.length, false, none⟩] ∧
      ((search_all_engines selfUC uc (fun _ => none) query language doc_type
          page [(nameA, Except.error e), (nameB, Except.ok rs)]
          now).1).merged_results =
        rs.map (fun i => { i with engine := nameB }) ∧
      ((search_all_engines selfUC uc (fun _ => none) query language doc_type
          page [(nameA, Except.error e), (nameB, Except.ok rs)]
          now).1).total_results = rs.length := by
  intro selfUC uc query language doc_type page now nameA nameB e rs hp
  have hrun : (runEngines selfUC uc query language doc_type page now
      (fun _ => none) [(nameA, Except.error e), (nameB, Except.ok rs)]).1 =
      [⟨nameA, [], 0, false, some e⟩,
       ⟨nameB, rs, rs.length, false, none⟩] := by
    simp only [runEngines, search_single_engine, get_cached_results,
      ite_self]
  have hmerged : msDedup [] (rs.map (fun i => { i with engine := nameB })) =
      rs.map (fun i => { i with engine := nameB }) := by
    apply msDedup_id
    · rw [List.pairwise_map]
      exact hp.imp (fun hab => hab)
    · intro r _ hx
      exact List.not_mem_nil _ hx
  refine ⟨?_, ?_, ?_⟩
  · simp only [search_all_engines, hrun]
  · simp only [search_all_engines, hrun, List.flatMap_cons,
      List.flatMap_nil, List.map_nil, List.nil_append, List.append_nil]
    exact hmerged
  · simp only [search_all_engines, hrun, List.flatMap_cons,
      List.flatMap_nil, List.map_nil, List.nil_append, List.append_nil,
      hmerged, List.length_map]

/-- Witness for C4 (amended): backend `serper` raises `boom`, backend
`brave` succeeds with two distinct-URL results; the report marks `serper`
errored and `brave` successful with count 2, and the merged list is exactly
brave's two results. -/
theorem c4_partial_failure_amended_witness :
    ((search_all_engines false false (fun _ => none) "q" none none none
      [("serper", Except.error "boom"),
       ("brave", Except.ok [{ url := "u1" }, { url := "u2" }])]
      0).1).engines =
      [⟨"serper", [], 0, false, some "boom"⟩,
       ⟨"brave", [{ url := "u1" }, { url := "u2" }], 2, false, none⟩] ∧
    ((search_all_engines false false (fun _ => none) "q" none none none
      [("serper", Except.error "boom"),
       ("brave", Except.ok [{ url := "u1" }, { url := "u2" }])]
      0).1).merged_results =
      ([{ url := "u1" }, { url := "u2" }] : List Rec).map
        (fun i => { i with engine := "brave" }) ∧
    ((search_all_engines false false (fun _ => none) "q" none none none
      [("serper", Except.error "boom"),
       ("brave", Except.ok [{ url := "u1" }, { url := "u2" }])]
      0).1).total_results = 2 :=
  c4_partial_failure_amended false false "q" none none none 0 "serper"
    "brave" "boom" [{ url := "u1" }, { url := "u2" }] (by decide)

/-- C6: `build_search_query` is a total function of its inputs (the
embedding returns a string for every combination); an unsupported language
makes the output identical to the English-table output, an unknown category
resolves the core keyword to `"parts"` — the default category's English core
keyword — and dropping the optional inputs (brand, model, filetype) only
shrinks the parts of the query (the reduced parts list is a sublist of the
full one). -/
theorem c6_query_total_fallbacks :
    ∀ (brand model : Option String)
      (category filetype engine language : String),
      (language ∉ (["en", "tr", "ru", "zh"] : List String) →
        build_search_query brand model category filetype engine language =
          build_search_query brand model category filetype engine "en") ∧
      (category ∉ (["parts_catalog", "service_manual", "electrical_diagram",
          "hydraulic_diagram", "troubleshooting"] : List String) →
        coreKeywordOf language category = "parts" ∧
        coreKeywordOf "en" "parts_catalog" = "parts") ∧
      List.Sublist (queryParts none none category "" engine language)
        (queryParts brand model category filetype engine language) := by
  intro brand model category filetype engine language
  refine ⟨?_, ?_, ?_⟩
  · intro h
    exact build_query_lang_congr brand model category filetype engine
      language (termsTableOf_unsupported language h)
      (coreTableOf_unsupported language h)
  · intro h
    exact ⟨coreKeywordOf_unknown language category h, rfl⟩
  · have hleft : queryParts none none category "" engine language =
        corePart category language ++ variantPart category language := by
      simp [queryParts, brandPart, modelPart, filetypePart]
    rw [hleft]
    have h1 : List.Sublist
        (corePart category language ++ variantPart category language)
        ((corePart category language ++ variantPart category language) ++
          filetypePart filetype engine) :=
      List.sublist_append_left _ _
    have h2 : List.Sublist
        ((corePart category language ++ variantPart category language) ++
          filetypePart filetype engine)
        ((brandPart brand ++ modelPart model) ++
          ((corePart category language ++ variantPart category language) ++
            filetypePart filetype engine)) :=
      List.sublist_append_right _ _
    have heq : (brandPart brand ++ modelPart model) ++
        ((corePart category language ++ variantPart category language) ++
          filetypePart filetype engine) =
        queryParts brand model category filetype engine language := by
      simp [queryParts, List.append_assoc]
    exact heq ▸ (h1.trans h2)

/-- Witness for C6: the unsupported language `"fr"` falls back to the
English tables and the unknown category `"unknown_cat"` falls back to the
core keyword `"parts"`. -/
theorem c6_query_total_fallbacks_witness :
    build_search_query (some "cat") none "unknown_cat" "pdf" "google" "fr" =
      build_search_query (some "cat") none "unknown_cat" "pdf" "google"
        "en" ∧
    coreKeywordOf "fr" "unknown_cat" = "parts" := by
  constructor
  · exact (c6_query_total_fallbacks (some "cat") none "unknown_cat" "pdf"
      "google" "fr").1 (by decide)
  · exact ((c6_query_total_fallbacks (some "cat") none "unknown_cat" "pdf"
      "google" "fr").2.1 (by decide)).1

end Katalogbul
